import Mathlib

/-! Shallow embedding of the QMT live-trading script (模拟.ipynb): the state
container `_a`/`A`, the decision function `f`, the broker callback class
`MyXtQuantTraderCallback`, and the `__main__` polling loop, together with
theorems settling the specification claims about them.

Prices are modelled as exact rationals, the per-instrument data frames
returned by `xtdata.get_market_data_ex(['close'], ...)` as lists of rows
(timestamp index, close column), and the data dict as an association list
in iteration order.
-/

/-- One row of the DataFrame returned for field list `['close']`: the index
timestamp and the close value (column 0). -/
structure Row where
  time : Nat
  close : ℚ
deriving DecidableEq

/-- The per-instrument frame `data[stock]`. -/
abbrev Frame := List Row

/-- pandas `DataFrame.iloc[i, 0]` row selection: a negative index counts from
the end; an out-of-range index raises IndexError, modelled as `none`. -/
def iloc (fr : Frame) (i : Int) : Option Row :=
  let j : Int := if i < 0 then (fr.length : Int) + i else i
  if j < 0 then none else fr.get? j.toNat

/-- Embeds `xtconstant.STOCK_BUY` / `xtconstant.STOCK_SELL`. -/
inductive OrderSide where
  | buy
  | sell
deriving DecidableEq

/-- Embeds `xtconstant.LATEST_PRICE` / `xtconstant.FIX_PRICE`. -/
inductive PriceTag where
  | latest
  | fix
deriving DecidableEq

/-- The argument record of a call to `xt_trader.order_stock_async`. -/
structure Order where
  account : String
  stock_code : String
  order_type : OrderSide
  order_volume : Nat
  price_type : PriceTag
  price : Int
  strategy_name : String
  order_remark : String
deriving DecidableEq

/-- Embeds `xt_trader.order_stock_async(acc, stock, order_type, volume, price_type,
price, strategy_name, order_remark)`: the submitted order record. -/
def order_stock_async (account stock_code : String) (order_type : OrderSide)
    (order_volume : Nat) (price_type : PriceTag) (price : Int)
    (strategy_name order_remark : String) : Order :=
  ⟨account, stock_code, order_type, order_volume, price_type, price,
    strategy_name, order_remark⟩

/-- The `_a` class instance `A`, the mutable state container: the
open-position list `A.bought_list` and the tradable universe
`A.hsa = xtdata.get_stock_list_in_sector('沪深A股')`. -/
structure AState where
  bought_list : List String
  hsa : List String
deriving DecidableEq

/-- The Python exceptions `f` can raise: out-of-bounds `.iloc` access. -/
inductive PyErr where
  | indexError
deriving DecidableEq

/-- Result of one call of `f`: the orders submitted (in submission order),
the state container after the call, and the uncaught exception if one was
raised part-way through the iteration. -/
structure FResult where
  orders : List Order
  state : AState
  err : Option PyErr
deriving DecidableEq

/-- Embeds `ratio = cuurent_price / pre_price - 1 if pre_price > 0 else 0`. -/
def ratioOf (cuurent_price pre_price : ℚ) : ℚ :=
  if pre_price > 0 then cuurent_price / pre_price - 1 else 0

/-- The decision function `f(data)`: iterate over the data dict; skip stocks
outside `A.hsa`; read the last and second-to-last close; buy 100 shares at
latest price and append to `A.bought_list` when the relative change exceeds
9% and the stock is not yet bought. An IndexError from `.iloc` aborts the
iteration, keeping the orders and state mutations already made. `acc` is the
`StockAccount` passed through to `order_stock_async`. -/
def f (acc : String) (A : AState) : List (String × Frame) → FResult
  | [] => ⟨[], A, none⟩
  | (stock, df) :: rest =>
    if stock ∉ A.hsa then
      f acc A rest
    else
      match iloc df (-1), iloc df (-2) with
      | some row1, some row2 =>
        let cuurent_price := row1.close
        let pre_price := row2.close
        let ratio := ratioOf cuurent_price pre_price
        if ratio > 9 / 100 ∧ stock ∉ A.bought_list then
          let o := order_stock_async acc stock .buy 100 .latest (-1)
            "strategy_name" stock
          let r := f acc { A with bought_list := A.bought_list ++ [stock] } rest
          ⟨o :: r.orders, r.state, r.err⟩
        else
          f acc A rest
      | _, _ => ⟨[], A, some .indexError⟩

/-- Embeds `now.strftime('%H%M%S')` as the number h*10000 + m*100 + s; on six-digit
zero-padded strings Python's lexicographic comparison coincides with this
numeric comparison. -/
def strftimeHMS (h m s : Nat) : Nat :=
  h * 10000 + m * 100 + s

/-- The loop guard `'093000' <= now_time < '150000'`. -/
def inTradingWindow (now_time : Nat) : Bool :=
  decide (93000 ≤ now_time) && decide (now_time < 150000)

/-- One iteration of the `while True` polling loop: outside the trading
window it breaks at once; inside it fetches the market data, runs `f`, and
sleeps three seconds before the next iteration. -/
inductive LoopOutcome where
  | exited
  | polled (r : FResult)
deriving DecidableEq

/-- The body of one iteration of the `__main__` polling loop at wall-clock
time-of-day `now_time`, with `data` the snapshot
`xtdata.get_market_data_ex(['close'], code_list, ...)` it would fetch. -/
def loopIter (acc : String) (A : AState) (now_time : Nat)
    (data : List (String × Frame)) : LoopOutcome :=
  if ¬ inTradingWindow now_time then .exited else .polled (f acc A data)

/-- Orders submitted by one loop iteration. -/
def LoopOutcome.submitted : LoopOutcome → List Order
  | .exited => []
  | .polled r => r.orders

/-- The statements of `__main__` after the polling loop, in program order:
`xt_trader.run_forever()` (comment: 阻塞主线程退出 — blocks the main thread
from exiting) and then `interact()` (a blocking interactive console). -/
inductive PostLoopStep where
  | run_forever
  | interact
  | exitWithCode (c : Nat)
deriving DecidableEq

/-- The post-loop tail of `__main__` as written in the source. -/
def mainPostLoop : List PostLoopStep :=
  [.run_forever, .interact]

/-- The exit code a post-loop tail terminates with, if it terminates:
`run_forever` and the interactive console block, so no step after them is
reached and no exit code is produced; falling off the end of the script
exits 0. -/
def terminalExitCode : List PostLoopStep → Option Nat
  | [] => some 0
  | .exitWithCode c :: _ => some c
  | .run_forever :: _ => none
  | .interact :: _ => none

/-- The `XtOrder` callback argument (only `order_remark` is read). -/
structure XtOrder where
  order_remark : String

/-- The `XtTrade` callback argument (only `order_remark` is read). -/
structure XtTrade where
  order_remark : String

/-- The `XtOrderError` callback argument. -/
structure XtOrderError where
  order_id : Nat
  error_id : Nat
  error_msg : String
  order_remark : String

/-- The `XtCancelError` callback argument (no field is read). -/
structure XtCancelError

/-- The `XtOrderResponse` callback argument (only `order_remark` is read). -/
structure XtOrderResponse where
  order_remark : String

/-- The `XtCancelOrderResponse` callback argument (no field is read). -/
structure XtCancelOrderResponse

/-- The `XtAccountStatus` callback argument (no field is read). -/
structure XtAccountStatus

/-- What the `MyXtQuantTraderCallback` handlers print. -/
inductive LogEvent where
  | disconnected
  | stockOrder (order_remark : String)
  | stockTrade (order_remark : String)
  | orderError (order_remark error_msg : String)
  | cancelError
  | orderAsyncResponse (order_remark : String)
  | cancelAsyncResponse
  | accountStatus
deriving DecidableEq

/-- Handler `on_disconnected`: prints '连接断开回调'. -/
def on_disconnected (A : AState) : AState × List LogEvent :=
  (A, [.disconnected])

/-- Handler `on_stock_order`: prints '委托回调' and the order remark. -/
def on_stock_order (A : AState) (order : XtOrder) : AState × List LogEvent :=
  (A, [.stockOrder order.order_remark])

/-- Handler `on_stock_trade`: prints '成交回调' and the trade's order remark. -/
def on_stock_trade (A : AState) (trade : XtTrade) : AState × List LogEvent :=
  (A, [.stockTrade trade.order_remark])

/-- Handler `on_order_error`: prints 委托报错回调 with the originating order's remark
and the error message. -/
def on_order_error (A : AState) (order_error : XtOrderError) :
    AState × List LogEvent :=
  (A, [.orderError order_error.order_remark order_error.error_msg])

/-- Handler `on_cancel_error`: prints the handler name. -/
def on_cancel_error (A : AState) (cancel_error : XtCancelError) :
    AState × List LogEvent :=
  (A, [.cancelError])

/-- Handler `on_order_stock_async_response`: prints 异步委托回调 with the remark. -/
def on_order_stock_async_response (A : AState) (response : XtOrderResponse) :
    AState × List LogEvent :=
  (A, [.orderAsyncResponse response.order_remark])

/-- Handler `on_cancel_order_stock_async_response`: prints the handler name. -/
def on_cancel_order_stock_async_response (A : AState)
    (response : XtCancelOrderResponse) : AState × List LogEvent :=
  (A, [.cancelAsyncResponse])

/-- Handler `on_account_status`: prints the handler name. -/
def on_account_status (A : AState) (status : XtAccountStatus) :
    AState × List LogEvent :=
  (A, [.accountStatus])

/-- Combined system state for the live run: the strategy container plus
ghost bookkeeping of which order remarks have had their asynchronous
submission response delivered by the callback thread. -/
structure SysState where
  strat : AState
  confirmed : List String
deriving DecidableEq

/-- Events of the live run interleaving: a polling-loop tick running `f` on
a snapshot, or the callback thread delivering the asynchronous order
response for a submission. -/
inductive SysEvent where
  | poll (data : List (String × Frame))
  | asyncOrderResponse (response : XtOrderResponse)

/-- One step of the live system: a poll runs `f` on the strategy container;
an asynchronous order response runs the print-only callback and is recorded
in the ghost confirmation log. -/
def sysStep (acc : String) (st : SysState) : SysEvent → SysState
  | .poll data => { st with strat := (f acc st.strat data).state }
  | .asyncOrderResponse resp =>
    { strat := (on_order_stock_async_response st.strat resp).1
      confirmed := st.confirmed ++ [resp.order_remark] }

/-- A whole strategy run: `f` applied to the successive snapshots fetched by
the polling loop, threading `A` through; an uncaught exception ends the run
(the orders already submitted stand). -/
def runPolicy (acc : String) (A : AState) :
    List (List (String × Frame)) → List Order × AState
  | [] => ([], A)
  | d :: ds =>
    let r := f acc A d
    if r.err.isSome then (r.orders, r.state)
    else
      (r.orders ++ (runPolicy acc r.state ds).1, (runPolicy acc r.state ds).2)

/-- Re-timestamping a frame, leaving the close column unchanged. -/
def retime (g : Nat → Nat) (fr : Frame) : Frame :=
  fr.map fun r => ⟨g r.time, r.close⟩

/-! Structural lemmas about the decision function f. -/

lemma f_nil (acc : String) (A : AState) : f acc A [] = ⟨[], A, none⟩ := rfl

lemma f_state_eq (acc : String) (A : AState) (data : List (String × Frame)) :
    (f acc A data).state =
      ⟨A.bought_list ++ (f acc A data).orders.map Order.stock_code, A.hsa⟩ := by
  induction data generalizing A with
  | nil => simp [f]
  | cons p rest ih =>
    obtain ⟨stock, df⟩ := p
    by_cases hh : stock ∈ A.hsa
    · rcases h1 : iloc df (-1) with _ | row1
      · simp [f, hh, h1]
      rcases h2 : iloc df (-2) with _ | row2
      · simp [f, hh, h1, h2]
      by_cases hc : ratioOf row1.close row2.close > 9 / 100 ∧ stock ∉ A.bought_list
      · have hrec := ih { A with bought_list := A.bought_list ++ [stock] }
        simp [f, hh, h1, h2, hc, hrec, order_stock_async]
      · simpa [f, hh, h1, h2, hc] using ih A
    · simpa [f, hh] using ih A

lemma f_orders_mem (acc : String) (A : AState) (data : List (String × Frame)) :
    ∀ o ∈ (f acc A data).orders,
      o = order_stock_async acc o.stock_code .buy 100 .latest (-1)
            "strategy_name" o.stock_code
      ∧ o.stock_code ∈ A.hsa ∧ o.stock_code ∉ A.bought_list := by
  induction data generalizing A with
  | nil => simp [f]
  | cons p rest ih =>
    obtain ⟨stock, df⟩ := p
    by_cases hh : stock ∈ A.hsa
    · rcases h1 : iloc df (-1) with _ | row1
      · simp [f, hh, h1]
      rcases h2 : iloc df (-2) with _ | row2
      · simp [f, hh, h1, h2]
      by_cases hc : ratioOf row1.close row2.close > 9 / 100 ∧ stock ∉ A.bought_list
      · intro o ho
        have ho' : o = order_stock_async acc stock .buy 100 .latest (-1)
            "strategy_name" stock
            ∨ o ∈ (f acc { A with bought_list := A.bought_list ++ [stock] } rest).orders := by
          simpa [f, hh, h1, h2, hc] using ho
        rcases ho' with rfl | ho'
        · exact ⟨rfl, hh, hc.2⟩
        · obtain ⟨hshape, hmem, hfresh⟩ :=
            ih { A with bought_list := A.bought_list ++ [stock] } o ho'
          refine ⟨hshape, hmem, fun hb => hfresh ?_⟩
          simp [hb]
      · intro o ho
        exact ih A o (by simpa [f, hh, h1, h2, hc] using ho)
    · intro o ho
      exact ih A o (by simpa [f, hh] using ho)

lemma f_orders_nodup (acc : String) (A : AState) (data : List (String × Frame)) :
    ((f acc A data).orders.map Order.stock_code).Nodup := by
  induction data generalizing A with
  | nil => simp [f]
  | cons p rest ih =>
    obtain ⟨stock, df⟩ := p
    by_cases hh : stock ∈ A.hsa
    · rcases h1 : iloc df (-1) with _ | row1
      · simp [f, hh, h1]
      rcases h2 : iloc df (-2) with _ | row2
      · simp [f, hh, h1, h2]
      by_cases hc : ratioOf row1.close row2.close > 9 / 100 ∧ stock ∉ A.bought_list
      · have hfresh := fun o ho =>
          (f_orders_mem acc { A with bought_list := A.bought_list ++ [stock] } rest o ho).2.2
        have hnotin : stock ∉
            ((f acc { A with bought_list := A.bought_list ++ [stock] } rest).orders.map
              Order.stock_code) := by
          intro hmem
          obtain ⟨o, ho, hoeq⟩ := List.mem_map.mp hmem
          exact hfresh o ho (by simp [hoeq])
        simp only [f, hh, h1, h2, hc]
        simpa [order_stock_async, hnotin] using
          ih { A with bought_list := A.bought_list ++ [stock] }
      · simpa [f, hh, h1, h2, hc] using ih A
    · simpa [f, hh] using ih A

lemma f_idem (acc : String) (A : AState) (data : List (String × Frame)) :
    (f acc (f acc A data).state data).orders = [] := by
  induction data generalizing A with
  | nil => simp [f]
  | cons p rest ih =>
    obtain ⟨stock, df⟩ := p
    by_cases hh : stock ∈ A.hsa
    · rcases h1 : iloc df (-1) with _ | row1
      · simp [f, hh, h1]
      rcases h2 : iloc df (-2) with _ | row2
      · simp [f, hh, h1, h2]
      by_cases hc : ratioOf row1.close row2.close > 9 / 100 ∧ stock ∉ A.bought_list
      · have hS := f_state_eq acc { A with bought_list := A.bought_list ++ [stock] } rest
        have hh' : stock ∈
            (f acc { A with bought_list := A.bought_list ++ [stock] } rest).state.hsa := by
          rw [hS]; exact hh
        have hmem : stock ∈
            (f acc { A with bought_list := A.bought_list ++ [stock] } rest).state.bought_list := by
          rw [hS]; simp
        have hfirst : (f acc A ((stock, df) :: rest)).state =
            (f acc { A with bought_list := A.bought_list ++ [stock] } rest).state := by
          simp [f, hh, h1, h2, hc]
        rw [hfirst]
        simpa [f, hh', h1, h2, hmem] using
          ih { A with bought_list := A.bought_list ++ [stock] }
      · have hT := f_state_eq acc A rest
        have hh' : stock ∈ (f acc A rest).state.hsa := by rw [hT]; exact hh
        have hcond2 : ¬(ratioOf row1.close row2.close > 9 / 100
            ∧ stock ∉ (f acc A rest).state.bought_list) := by
          rintro ⟨hr, hnb⟩
          refine hc ⟨hr, fun hb => hnb ?_⟩
          rw [hT]; simp [hb]
        have hfirst : (f acc A ((stock, df) :: rest)).state = (f acc A rest).state := by
          simp [f, hh, h1, h2, hc]
        rw [hfirst]
        simpa [f, hh', h1, h2, hcond2] using ih A
    · have hT := f_state_eq acc A rest
      have hh' : stock ∉ (f acc A rest).state.hsa := by rw [hT]; exact hh
      have hfirst : f acc A ((stock, df) :: rest) = f acc A rest := by
        simp [f, hh]
      rw [hfirst]
      simpa [f, hh'] using ih A

lemma f_state_hsa (acc : String) (A : AState) (data : List (String × Frame)) :
    (f acc A data).state.hsa = A.hsa := by
  rw [f_state_eq]

lemma f_orders_remark (acc : String) (A : AState) (data : List (String × Frame)) :
    ∀ o ∈ (f acc A data).orders, o.order_remark = o.stock_code := by
  intro o ho
  have h := (f_orders_mem acc A data o ho).1
  simpa [order_stock_async] using congrArg Order.order_remark h

lemma iloc_isSome_of (fr : Frame) (i : Int) (h0 : i < 0) (h : -i ≤ (fr.length : Int)) :
    ∃ r, iloc fr i = some r := by
  have hlen : ((fr.length : Int) + i).toNat < fr.length := by omega
  refine ⟨fr.get ⟨((fr.length : Int) + i).toNat, hlen⟩, ?_⟩
  unfold iloc
  have h2 : ¬ ((fr.length : Int) + i < 0) := by omega
  simp only [h0, if_pos, if_neg, h2, if_false]
  exact List.get?_eq_get hlen

lemma f_err_none (acc : String) (A : AState) (data : List (String × Frame))
    (hlen : ∀ p ∈ data, 2 ≤ p.2.length) : (f acc A data).err = none := by
  induction data generalizing A with
  | nil => simp [f]
  | cons p rest ih =>
    obtain ⟨stock, df⟩ := p
    have hdf : 2 ≤ df.length := hlen (stock, df) (List.mem_cons_self _ _)
    have hrest : ∀ p ∈ rest, 2 ≤ p.2.length := fun p hp => hlen p (List.mem_cons_of_mem _ hp)
    by_cases hh : stock ∈ A.hsa
    · obtain ⟨r1, h1⟩ := iloc_isSome_of df (-1) (by norm_num) (by push_cast; omega)
      obtain ⟨r2, h2⟩ := iloc_isSome_of df (-2) (by norm_num) (by push_cast; omega)
      by_cases hc : ratioOf r1.close r2.close > 9 / 100 ∧ stock ∉ A.bought_list
      · simpa [f, hh, h1, h2, hc] using
          ih { A with bought_list := A.bought_list ++ [stock] } hrest
      · simpa [f, hh, h1, h2, hc] using ih A hrest
    · simpa [f, hh] using ih A hrest

lemma iloc_retime (g : Nat → Nat) (fr : Frame) (i : Int) :
    iloc (retime g fr) i = (iloc fr i).map fun r => ⟨g r.time, r.close⟩ := by
  unfold iloc retime
  simp only [List.length_map]
  by_cases h : (if i < 0 then (fr.length : Int) + i else i) < 0
  · simp [h]
  · simp [h, List.get?_map]

lemma f_retime (acc : String) (A : AState) (g : Nat → Nat)
    (data : List (String × Frame)) :
    f acc A (data.map fun p => (p.1, retime g p.2)) = f acc A data := by
  induction data generalizing A with
  | nil => simp [f]
  | cons p rest ih =>
    obtain ⟨stock, df⟩ := p
    simp only [List.map_cons]
    by_cases hh : stock ∈ A.hsa
    · rcases h1 : iloc df (-1) with _ | row1
      · have h1' : iloc (retime g df) (-1) = none := by simp [iloc_retime, h1]
        simp [f, hh, h1, h1']
      rcases h2 : iloc df (-2) with _ | row2
      · have h1' : iloc (retime g df) (-1) = some ⟨g row1.time, row1.close⟩ := by
          simp [iloc_retime, h1]
        have h2' : iloc (retime g df) (-2) = none := by simp [iloc_retime, h2]
        simp [f, hh, h1, h2, h1', h2']
      · have h1' : iloc (retime g df) (-1) = some ⟨g row1.time, row1.close⟩ := by
          simp [iloc_retime, h1]
        have h2' : iloc (retime g df) (-2) = some ⟨g row2.time, row2.close⟩ := by
          simp [iloc_retime, h2]
        by_cases hc : ratioOf row1.close row2.close > 9 / 100 ∧ stock ∉ A.bought_list
        · simp [f, hh, h1, h2, h1', h2', hc, ih]
        · simp [f, hh, h1, h2, h1', h2', hc, ih]
    · simp [f, hh, ih]

lemma runPolicy_spec (acc : String) (batches : List (List (String × Frame))) :
    ∀ A : AState,
      (runPolicy acc A batches).2.bought_list
        = A.bought_list ++ (runPolicy acc A batches).1.map Order.stock_code
      ∧ (∀ o ∈ (runPolicy acc A batches).1,
          o.order_remark = o.stock_code ∧ o.stock_code ∉ A.bought_list)
      ∧ ((runPolicy acc A batches).1.map Order.stock_code).Nodup := by
  induction batches with
  | nil => intro A; simp [runPolicy]
  | cons d ds ih =>
    intro A
    by_cases he : (f acc A d).err.isSome
    · refine ⟨?_, ?_, ?_⟩
      · simp only [runPolicy, he, if_pos]
        rw [f_state_eq]
      · intro o ho
        have ho' : o ∈ (f acc A d).orders := by simpa [runPolicy, he] using ho
        exact ⟨f_orders_remark acc A d o ho', (f_orders_mem acc A d o ho').2.2⟩
      · simp only [runPolicy, he, if_pos]
        exact f_orders_nodup acc A d
    · obtain ⟨hb, hsh, hnd⟩ := ih (f acc A d).state
      have hS := f_state_eq acc A d
      have hrun : runPolicy acc A (d :: ds)
          = ((f acc A d).orders ++ (runPolicy acc (f acc A d).state ds).1,
             (runPolicy acc (f acc A d).state ds).2) := by
        simp [runPolicy, he]
      have hfreshRest : ∀ s ∈ (runPolicy acc (f acc A d).state ds).1.map Order.stock_code,
          s ∈ A.bought_list ++ (f acc A d).orders.map Order.stock_code → False := by
        intro s hs hmem
        obtain ⟨o, ho, rfl⟩ := List.mem_map.mp hs
        have := (hsh o ho).2
        rw [hS] at this
        exact this hmem
      refine ⟨?_, ?_, ?_⟩
      · rw [hrun]
        simp only []
        rw [hb, hS]
        simp [List.append_assoc]
      · intro o ho
        rw [hrun] at ho
        rcases List.mem_append.mp ho with ho' | ho'
        · exact ⟨f_orders_remark acc A d o ho', (f_orders_mem acc A d o ho').2.2⟩
        · refine ⟨(hsh o ho').1, fun hb' => ?_⟩
          exact hfreshRest o.stock_code (List.mem_map_of_mem _ ho')
            (List.mem_append.mpr (Or.inl hb'))
      · rw [hrun]
        simp only [List.map_append]
        rw [List.nodup_append]
        refine ⟨f_orders_nodup acc A d, hnd, ?_⟩
        intro s hs hs'
        exact hfreshRest s hs' (List.mem_append.mpr (Or.inr hs))

/-! Claim theorems. -/

/-- C3: every polling-loop iteration whose wall-clock time-of-day lies outside
the 09:30:00–15:00:00 trading window breaks out of the loop before fetching
market data or invoking `f`, so it submits no orders. -/
theorem claim_C3 (acc : String) (A : AState) (now_time : Nat)
    (data : List (String × Frame)) (h : inTradingWindow now_time = false) :
    loopIter acc A now_time data = .exited
    ∧ (loopIter acc A now_time data).submitted = [] := by
  simp [loopIter, h, LoopOutcome.submitted]

/-- C3 witness: a poll at 15:00:01 is outside the window and exits the loop. -/
theorem claim_C3_witness :
    inTradingWindow (strftimeHMS 15 0 1) = false
    ∧ loopIter "2000128" ⟨[], []⟩ (strftimeHMS 15 0 1) [] = .exited :=
  ⟨by decide, (claim_C3 "2000128" ⟨[], []⟩ (strftimeHMS 15 0 1) [] (by decide)).1⟩

/-- C4: every broker callback handler only logs — the order-report, trade-report,
order-error and async-response handlers log the originating order's remark —
and returns the strategy state container unchanged. -/
theorem claim_C4 :
    (∀ A : AState, (on_disconnected A).1 = A)
    ∧ (∀ (A : AState) (order : XtOrder), (on_stock_order A order).1 = A
        ∧ (on_stock_order A order).2 = [.stockOrder order.order_remark])
    ∧ (∀ (A : AState) (trade : XtTrade), (on_stock_trade A trade).1 = A
        ∧ (on_stock_trade A trade).2 = [.stockTrade trade.order_remark])
    ∧ (∀ (A : AState) (e : XtOrderError), (on_order_error A e).1 = A
        ∧ (on_order_error A e).2 = [.orderError e.order_remark e.error_msg])
    ∧ (∀ (A : AState) (e : XtCancelError), (on_cancel_error A e).1 = A)
    ∧ (∀ (A : AState) (resp : XtOrderResponse),
        (on_order_stock_async_response A resp).1 = A
        ∧ (on_order_stock_async_response A resp).2
            = [.orderAsyncResponse resp.order_remark])
    ∧ (∀ (A : AState) (resp : XtCancelOrderResponse),
        (on_cancel_order_stock_async_response A resp).1 = A)
    ∧ (∀ (A : AState) (s : XtAccountStatus), (on_account_status A s).1 = A) :=
  ⟨fun _ => rfl, fun _ _ => ⟨rfl, rfl⟩, fun _ _ => ⟨rfl, rfl⟩,
   fun _ _ => ⟨rfl, rfl⟩, fun _ _ => rfl, fun _ _ => ⟨rfl, rfl⟩,
   fun _ _ => rfl, fun _ _ => rfl⟩

/-- C8 counterexample: after the trading-window exit the first statement of the
program tail is `xt_trader.run_forever()`, which blocks, and the tail reaches
no exit code — in particular not exit code 0. -/
theorem claim_C8_counterexample :
    ¬ (terminalExitCode mainPostLoop = some 0)
    ∧ mainPostLoop.head? = some .run_forever := by
  decide

/-- C8 (amended): when a poll falls outside the trading window the loop exits
cleanly without invoking `f`, but the program then blocks in
`xt_trader.run_forever()` followed by the interactive console, and never
reaches a defined exit code. -/
theorem claim_C8_amended (acc : String) (A : AState) (now_time : Nat)
    (data : List (String × Frame)) (h : inTradingWindow now_time = false) :
    loopIter acc A now_time data = .exited
    ∧ mainPostLoop = [.run_forever, .interact]
    ∧ terminalExitCode mainPostLoop = none :=
  ⟨by simp [loopIter, h], rfl, rfl⟩

/-- C8 witness: the amended claim at a concrete post-window poll (15:00:30). -/
theorem claim_C8_witness :
    inTradingWindow (strftimeHMS 15 0 30) = false
    ∧ terminalExitCode mainPostLoop = none :=
  ⟨by decide,
   (claim_C8_amended "2000128" ⟨[], []⟩ (strftimeHMS 15 0 30) [] (by decide)).2.2⟩

/-- C9: with at least two rows in every delivered frame `f` raises no
IndexError; a non-positive previous close makes the ratio 0 (no division and
no order can fire from it); and for a one-row frame of a tradable instrument
the IndexError branch is reached at the public interface. -/
theorem claim_C9 (acc : String) (A : AState) (data : List (String × Frame))
    (hlen : ∀ p ∈ data, 2 ≤ p.2.length) :
    (f acc A data).err = none
    ∧ (∀ c p : ℚ, p ≤ 0 → ratioOf c p = 0 ∧ ¬ (ratioOf c p > 9 / 100))
    ∧ (f "2000128" ⟨[], ["600000.SH"]⟩ [("600000.SH", [⟨20240101, 10⟩])]).err
        = some .indexError := by
  refine ⟨f_err_none acc A data hlen, ?_, ?_⟩
  · intro c p hp
    have hnp : ¬ (p > 0) := not_lt.mpr hp
    refine ⟨by simp [ratioOf, hnp], ?_⟩
    norm_num [ratioOf, hnp]
  · rfl

/-- C9 witness: a two-row frame runs without error; `ratioOf` at a zero
previous close is 0. -/
theorem claim_C9_witness :
    (f "2000128" ⟨[], ["600000.SH"]⟩
        [("600000.SH", [⟨20240101, 10⟩, ⟨20240102, 11⟩])]).err = none
    ∧ ratioOf 11 0 = 0 :=
  ⟨(claim_C9 "2000128" ⟨[], ["600000.SH"]⟩
      [("600000.SH", [⟨20240101, 10⟩, ⟨20240102, 11⟩])] (by simp)).1,
   ((claim_C9 "2000128" ⟨[], []⟩ [] (by simp)).2.1 11 0 (by norm_num)).1⟩

/-- C10: `f` submits orders only for instruments in the tradable universe
`A.hsa`, the universe itself is never modified, and the invariant that
`bought_list` is a subset of the universe is preserved. -/
theorem claim_C10 (acc : String) (A : AState) (data : List (String × Frame))
    (hsub : ∀ s ∈ A.bought_list, s ∈ A.hsa) :
    (∀ o ∈ (f acc A data).orders, o.stock_code ∈ A.hsa)
    ∧ (f acc A data).state.hsa = A.hsa
    ∧ (∀ s ∈ (f acc A data).state.bought_list, s ∈ (f acc A data).state.hsa) := by
  refine ⟨fun o ho => (f_orders_mem acc A data o ho).2.1, f_state_hsa acc A data, ?_⟩
  intro s hs
  have hb := congrArg AState.bought_list (f_state_eq acc A data)
  rw [hb] at hs
  rw [f_state_hsa]
  rcases List.mem_append.mp hs with h | h
  · exact hsub s h
  · obtain ⟨o, ho, rfl⟩ := List.mem_map.mp h
    exact (f_orders_mem acc A data o ho).2.1

/-- C10 witness: the subset invariant applied at a concrete state and data. -/
theorem claim_C10_witness :
    (∀ s ∈ (AState.mk [] ["600000.SH"]).bought_list,
      s ∈ (AState.mk [] ["600000.SH"]).hsa)
    ∧ (f "2000128" ⟨[], ["600000.SH"]⟩
        [("600000.SH", [⟨20240101, 10⟩, ⟨20240102, 11⟩])]).state.hsa
      = ["600000.SH"] :=
  ⟨by simp,
   (claim_C10 "2000128" ⟨[], ["600000.SH"]⟩
      [("600000.SH", [⟨20240101, 10⟩, ⟨20240102, 11⟩])] (by simp)).2.1⟩

lemma f_eval_demo :
    f "2000128" ⟨[], ["600000.SH"]⟩
        [("600000.SH", [⟨20240101, 10⟩, ⟨20240102, 11⟩])]
      = ⟨[order_stock_async "2000128" "600000.SH" .buy 100 .latest (-1)
            "strategy_name" "600000.SH"],
         ⟨["600000.SH"], ["600000.SH"]⟩, none⟩ := by
  have h1 : iloc [⟨20240101, 10⟩, ⟨20240102, 11⟩] (-1) = some ⟨20240102, 11⟩ := rfl
  have h2 : iloc [⟨20240101, 10⟩, ⟨20240102, 11⟩] (-2) = some ⟨20240101, 10⟩ := rfl
  have hr : ratioOf (11 : ℚ) 10 > 9 / 100 := by norm_num [ratioOf]
  simp [f, h1, h2, hr]

lemma f_eval_outoforder :
    f "2000128" ⟨[], ["600000.SH"]⟩
        [("600000.SH", [⟨20240102, 10⟩, ⟨20240101, 11⟩])]
      = ⟨[order_stock_async "2000128" "600000.SH" .buy 100 .latest (-1)
            "strategy_name" "600000.SH"],
         ⟨["600000.SH"], ["600000.SH"]⟩, none⟩ := by
  have h1 : iloc [⟨20240102, 10⟩, ⟨20240101, 11⟩] (-1) = some ⟨20240101, 11⟩ := rfl
  have h2 : iloc [⟨20240102, 10⟩, ⟨20240101, 11⟩] (-2) = some ⟨20240102, 10⟩ := rfl
  have hr : ratioOf (11 : ℚ) 10 > 9 / 100 := by norm_num [ratioOf]
  simp [f, h1, h2, hr]

/-- C2: an instrument already in `bought_list` is never ordered again whatever
the price data; the stocks ordered within one call are pairwise distinct;
`bought_list` never acquires duplicates; and re-running `f` on the same data
after a first run submits nothing. -/
theorem claim_C2 (acc s : String) (A : AState) (data : List (String × Frame)) :
    (s ∈ A.bought_list → ∀ o ∈ (f acc A data).orders, o.stock_code ≠ s)
    ∧ ((f acc A data).orders.map Order.stock_code).Nodup
    ∧ (A.bought_list.Nodup → (f acc A data).state.bought_list.Nodup)
    ∧ (f acc (f acc A data).state data).orders = [] := by
  refine ⟨?_, f_orders_nodup acc A data, ?_, f_idem acc A data⟩
  · intro hs o ho heq
    exact (f_orders_mem acc A data o ho).2.2 (heq ▸ hs)
  · intro hnd
    have hb := congrArg AState.bought_list (f_state_eq acc A data)
    rw [hb, List.nodup_append]
    refine ⟨hnd, f_orders_nodup acc A data, ?_⟩
    intro a ha ha'
    obtain ⟨o, ho, rfl⟩ := List.mem_map.mp ha'
    exact (f_orders_mem acc A data o ho).2.2 ha

/-- C2 witness: the no-reorder and no-duplicates parts at a concrete input in
which the instrument is already open. -/
theorem claim_C2_witness :
    ("600000.SH" : String) ∈ (AState.mk ["600000.SH"] ["600000.SH"]).bought_list
    ∧ (∀ o ∈ (f "2000128" ⟨["600000.SH"], ["600000.SH"]⟩
        [("600000.SH", [⟨20240101, 10⟩, ⟨20240102, 11⟩])]).orders,
        o.stock_code ≠ "600000.SH")
    ∧ (f "2000128" ⟨["600000.SH"], ["600000.SH"]⟩
        [("600000.SH", [⟨20240101, 10⟩, ⟨20240102, 11⟩])]).state.bought_list.Nodup :=
  ⟨by simp,
   (claim_C2 "2000128" "600000.SH" ⟨["600000.SH"], ["600000.SH"]⟩
      [("600000.SH", [⟨20240101, 10⟩, ⟨20240102, 11⟩])]).1 (by simp),
   (claim_C2 "2000128" "600000.SH" ⟨["600000.SH"], ["600000.SH"]⟩
      [("600000.SH", [⟨20240101, 10⟩, ⟨20240102, 11⟩])]).2.2.1 (by simp)⟩

/-- C5 counterexample: one poll step from a fresh state with a 10→11 frame
appends the instrument to `bought_list` although no asynchronous submission
confirmation has been received — the ghost confirmation log is still empty. -/
theorem claim_C5_counterexample :
    ("600000.SH" : String) ∈
      (sysStep "2000128" ⟨⟨[], ["600000.SH"]⟩, []⟩
        (.poll [("600000.SH", [⟨20240101, 10⟩, ⟨20240102, 11⟩])])).strat.bought_list
    ∧ (sysStep "2000128" ⟨⟨[], ["600000.SH"]⟩, []⟩
        (.poll [("600000.SH", [⟨20240101, 10⟩, ⟨20240102, 11⟩])])).confirmed = [] := by
  refine ⟨?_, rfl⟩
  simp [sysStep, f_eval_demo]

/-- C5 (amended): `f` marks an instrument open optimistically at submission
time — the additions to `bought_list` in a poll step are exactly the stocks of
the orders submitted in that step, independent of the confirmations received,
and the poll step never touches the confirmation log. -/
theorem claim_C5_amended (acc : String) (st : SysState)
    (data : List (String × Frame)) :
    (sysStep acc st (.poll data)).strat.bought_list
      = st.strat.bought_list ++ (f acc st.strat data).orders.map Order.stock_code
    ∧ (sysStep acc st (.poll data)).confirmed = st.confirmed := by
  refine ⟨?_, rfl⟩
  simpa [sysStep] using congrArg AState.bought_list (f_state_eq acc st.strat data)

/-- C6 counterexample: a frame whose timestamps strictly decrease — violating
the per-instrument non-decreasing ordering invariant — is processed silently:
`f` raises nothing and even submits an order from the reversed data. -/
theorem claim_C6_counterexample :
    ¬ List.Chain' (· ≤ ·)
        (([⟨20240102, 10⟩, ⟨20240101, 11⟩] : Frame).map Row.time)
    ∧ (f "2000128" ⟨[], ["600000.SH"]⟩
        [("600000.SH", [⟨20240102, 10⟩, ⟨20240101, 11⟩])]).err = none
    ∧ (f "2000128" ⟨[], ["600000.SH"]⟩
        [("600000.SH", [⟨20240102, 10⟩, ⟨20240101, 11⟩])]).orders ≠ [] := by
  refine ⟨by norm_num [List.chain'_cons], ?_, ?_⟩
  · rw [f_eval_outoforder]
  · rw [f_eval_outoforder]
    simp

/-- C6 (amended): `f` performs no timestamp validation at all — its result is
invariant under arbitrary re-timestamping of every frame — so data violating
the ordering invariant is processed exactly like ordered data, with no
`DataUnavailable`/`InvalidOrderParameters`-style error raised. -/
theorem claim_C6_amended (acc : String) (A : AState) (g : Nat → Nat)
    (data : List (String × Frame)) :
    f acc A (data.map fun p => (p.1, retime g p.2)) = f acc A data :=
  f_retime acc A g data

/-- C7: across a whole run every submitted order's remark is its instrument
code, and no two orders submitted in the run carry the same remark. -/
theorem claim_C7 (acc : String) (A : AState)
    (batches : List (List (String × Frame))) :
    (∀ o ∈ (runPolicy acc A batches).1, o.order_remark = o.stock_code)
    ∧ ((runPolicy acc A batches).1.map Order.order_remark).Nodup := by
  obtain ⟨-, hsh, hnd⟩ := runPolicy_spec acc batches A
  refine ⟨fun o ho => (hsh o ho).1, ?_⟩
  have hmapeq : (runPolicy acc A batches).1.map Order.order_remark
      = (runPolicy acc A batches).1.map Order.stock_code :=
    List.map_congr_left fun o ho => (hsh o ho).1
  rw [hmapeq]
  exact hnd

lemma c1_aux (acc s : String) (fr : Frame)
    (h1 : (iloc fr (-1)).map Row.close = some 11)
    (h2 : (iloc fr (-2)).map Row.close = some 10) :
    ∀ (data : List (String × Frame)) (A : AState),
      (data.map Prod.fst).Nodup → (s, fr) ∈ data → s ∈ A.hsa →
      s ∉ A.bought_list → (f acc A data).err = none →
      (f acc A data).orders.filter (fun o => o.stock_code == s)
        = [order_stock_async acc s .buy 100 .latest (-1) "strategy_name" s]
      ∧ s ∈ (f acc A data).state.bought_list := by
  intro data
  induction data with
  | nil =>
    intro A _ hmem
    simp at hmem
  | cons p rest ih =>
    obtain ⟨t, g⟩ := p
    intro A hkeys hmem hhsa hnb herr
    rcases List.mem_cons.mp hmem with heq | hmem'
    · obtain ⟨hst, hfg⟩ := Prod.mk.injEq .. ▸ heq
      subst hst
      subst hfg
      obtain ⟨row1, hrow1⟩ : ∃ r, iloc fr (-1) = some r := by
        cases hx : iloc fr (-1) with
        | none => rw [hx] at h1; simp at h1
        | some r => exact ⟨r, rfl⟩
      obtain ⟨row2, hrow2⟩ : ∃ r, iloc fr (-2) = some r := by
        cases hx : iloc fr (-2) with
        | none => rw [hx] at h2; simp at h2
        | some r => exact ⟨r, rfl⟩
      have hc1 : row1.close = 11 := by rw [hrow1] at h1; simpa using h1
      have hc2 : row2.close = 10 := by rw [hrow2] at h2; simpa using h2
      have hc : ratioOf row1.close row2.close > 9 / 100 ∧ s ∉ A.bought_list := by
        refine ⟨?_, hnb⟩
        rw [hc1, hc2]
        norm_num [ratioOf]
      have hstep : f acc A ((s, fr) :: rest)
          = ⟨order_stock_async acc s .buy 100 .latest (-1) "strategy_name" s
              :: (f acc { A with bought_list := A.bought_list ++ [s] } rest).orders,
             (f acc { A with bought_list := A.bought_list ++ [s] } rest).state,
             (f acc { A with bought_list := A.bought_list ++ [s] } rest).err⟩ := by
        simp [f, hhsa, hrow1, hrow2, hc]
      have hrestfilter :
          (f acc { A with bought_list := A.bought_list ++ [s] } rest).orders.filter
            (fun o => o.stock_code == s) = [] := by
        rw [List.filter_eq_nil]
        intro o ho
        have hfresh := (f_orders_mem acc
          { A with bought_list := A.bought_list ++ [s] } rest o ho).2.2
        simp only [beq_iff_eq]
        intro hos
        exact hfresh (by simp [hos])
      have hb := congrArg AState.bought_list
        (f_state_eq acc { A with bought_list := A.bought_list ++ [s] } rest)
      rw [hstep]
      constructor
      · simp only [List.filter_cons]
        simp [order_stock_async, hrestfilter]
      · simp only []
        rw [hb]
        simp
    · rw [List.map_cons, List.nodup_cons] at hkeys
      have hts : t ≠ s := by
        intro h
        subst h
        exact hkeys.1 (List.mem_map.mpr ⟨(t, fr), hmem', rfl⟩)
      have hkeys' : (rest.map Prod.fst).Nodup := hkeys.2
      by_cases hh : t ∈ A.hsa
      · rcases hg1 : iloc g (-1) with _ | r1
        · exfalso
          have : (f acc A ((t, g) :: rest)).err = some .indexError := by
            simp [f, hh, hg1]
          rw [this] at herr
          cases herr
        rcases hg2 : iloc g (-2) with _ | r2
        · exfalso
          have : (f acc A ((t, g) :: rest)).err = some .indexError := by
            simp [f, hh, hg1, hg2]
          rw [this] at herr
          cases herr
        by_cases hc' : ratioOf r1.close r2.close > 9 / 100 ∧ t ∉ A.bought_list
        · have hstep : f acc A ((t, g) :: rest)
              = ⟨order_stock_async acc t .buy 100 .latest (-1) "strategy_name" t
                  :: (f acc { A with bought_list := A.bought_list ++ [t] } rest).orders,
                 (f acc { A with bought_list := A.bought_list ++ [t] } rest).state,
                 (f acc { A with bought_list := A.bought_list ++ [t] } rest).err⟩ := by
            simp [f, hh, hg1, hg2, hc']
          rw [hstep] at herr ⊢
          have hnb' : s ∉ A.bought_list ++ [t] := by
            simp only [List.mem_append, List.mem_singleton]
            rintro (h | h)
            · exact hnb h
            · exact hts h.symm
          have ih' := ih { A with bought_list := A.bought_list ++ [t] }
            hkeys' hmem' hhsa hnb' (by simpa using herr)
          constructor
          · simp only [List.filter_cons]
            have : ((order_stock_async acc t .buy 100 .latest (-1)
                "strategy_name" t).stock_code == s) = false := by
              simp [order_stock_async, hts]
            simp only [this, if_neg, Bool.false_eq_true, not_false_eq_true]
            exact ih'.1
          · exact ih'.2
        · have hstep : f acc A ((t, g) :: rest) = f acc A rest := by
            simp [f, hh, hg1, hg2, hc']
          rw [hstep] at herr ⊢
          exact ih A hkeys' hmem' hhsa hnb herr
      · have hstep : f acc A ((t, g) :: rest) = f acc A rest := by
          simp [f, hh]
        rw [hstep] at herr ⊢
        exact ih A hkeys' hmem' hhsa hnb herr

/-- C1: for an instrument of the tradable universe, not yet open, whose frame
yields a previous close of 10.00 and a current close of 11.00 (a 10% rise,
above the 9% threshold), one call of `f` that completes without error submits
exactly one buy order — 100 shares at latest price, remark the instrument
code — for that instrument and appends the instrument to `bought_list`. -/
theorem claim_C1 (acc s : String) (fr : Frame) (data : List (String × Frame))
    (A : AState)
    (hkeys : (data.map Prod.fst).Nodup)
    (hmem : (s, fr) ∈ data)
    (hhsa : s ∈ A.hsa)
    (hnb : s ∉ A.bought_list)
    (h1 : (iloc fr (-1)).map Row.close = some 11)
    (h2 : (iloc fr (-2)).map Row.close = some 10)
    (herr : (f acc A data).err = none) :
    (f acc A data).orders.filter (fun o => o.stock_code == s)
      = [order_stock_async acc s .buy 100 .latest (-1) "strategy_name" s]
    ∧ s ∈ (f acc A data).state.bought_list :=
  c1_aux acc s fr h1 h2 data A hkeys hmem hhsa hnb herr

/-- C1 witness: the concrete instrument 600000.SH with closes 10.00 then
11.00, fresh state, singleton universe and data dict. -/
theorem claim_C1_witness :
    (f "2000128" ⟨[], ["600000.SH"]⟩
        [("600000.SH", [⟨20240101, 10⟩, ⟨20240102, 11⟩])]).orders.filter
      (fun o => o.stock_code == "600000.SH")
      = [order_stock_async "2000128" "600000.SH" .buy 100 .latest (-1)
          "strategy_name" "600000.SH"]
    ∧ "600000.SH" ∈ (f "2000128" ⟨[], ["600000.SH"]⟩
        [("600000.SH", [⟨20240101, 10⟩, ⟨20240102, 11⟩])]).state.bought_list :=
  claim_C1 "2000128" "600000.SH" [⟨20240101, 10⟩, ⟨20240102, 11⟩]
    [("600000.SH", [⟨20240101, 10⟩, ⟨20240102, 11⟩])] ⟨[], ["600000.SH"]⟩
    (by simp) (by simp) (by simp) (by simp) rfl rfl
    (f_err_none "2000128" ⟨[], ["600000.SH"]⟩
      [("600000.SH", [⟨20240101, 10⟩, ⟨20240102, 11⟩])] (by simp))
